import Mathlib

/-!
Verification of the task-line transformation and archive-merge engine of the
minimal-task plugin.  The definitions below are a shallow embedding of the
TypeScript source (`processTaskFile`, `appendDoneTasks`,
`checkRepeatTaskDates`): documents are lists of lines (`String`), the host's
clock is passed in as already-formatted date strings (`tomorrow`, `today`,
`dateHeader`), and the regex operations of the source are implemented
character by character with the same matching semantics.
-/

namespace MinimalTask

/-- The whitespace class used by the source's regexes (`\s`) and `trim`,
restricted to the characters that can occur in split lines. -/
def isWs (c : Char) : Bool :=
  c = ' ' || c = '\t' || c = '\n' || c = '\r' || c = '\x0b' || c = '\x0c'

/-- Remove the maximal whitespace suffix of a character list. -/
def dropTrailingWs (cs : List Char) : List Char :=
  (cs.reverse.dropWhile isWs).reverse

/-- JavaScript `String.prototype.trim` on character lists: remove leading and
trailing whitespace. -/
def trimChars (cs : List Char) : List Char :=
  dropTrailingWs (cs.dropWhile isWs)

/-- JavaScript `line.trim()`. -/
def strTrim (s : String) : String := String.mk (trimChars s.data)

/-- JavaScript `line.startsWith(pre)`. -/
def strStartsWith (s pre : String) : Bool := pre.data.isPrefixOf s.data

/-- Substring containment at some suffix position, i.e. JavaScript
`hay.includes(needle)`. -/
def containsSub : List Char → List Char → Bool
  | [], needle => needle.isEmpty
  | c :: rest, needle => needle.isPrefixOf (c :: rest) || containsSub rest needle

/-- JavaScript `s.includes(pat)`. -/
def strContains (s pat : String) : Bool := containsSub s.data pat.data

/-- The characters following the match of `/^\s*[-*]\s+\[[xX]\]\s*/`, when that
regex matches the line; `none` when it does not match.  The regex is
deterministic here: the greedy `\s*`/`\s+` runs are followed by
non-whitespace requirements, so no backtracking changes the match. -/
def stripCheckedPrefix (cs : List Char) : Option (List Char) :=
  match cs.dropWhile isWs with
  | m :: c :: rest =>
    if (m = '-' || m = '*') && isWs c then
      match rest.dropWhile isWs with
      | '[' :: x :: ']' :: rest2 =>
        if x = 'x' || x = 'X' then some (rest2.dropWhile isWs) else none
      | _ => none
    else none
  | _ => none

/-- The test `/^\s*[-*]\s+\[[xX]\]/.test(line)`: the trailing `\s*` of the
replace-regex always matches, so the test succeeds exactly when the
replace-regex matches. -/
def isCheckedTask (line : String) : Bool := (stripCheckedPrefix line.data).isSome

/-- Whether `/\([^)]+\)\s*$/` matches starting right after a `(` whose
remaining characters are `cs`: a nonempty run of non-`)` characters, the
closing `)`, then only whitespace up to the end of the line. -/
def annotHere (cs : List Char) : Bool :=
  (!(cs.takeWhile (fun c => c ≠ ')')).isEmpty) &&
    (match cs.dropWhile (fun c => c ≠ ')') with
     | ')' :: tail => tail.all isWs
     | _ => false)

/-- JavaScript `s.replace(/\([^)]+\)\s*$/, "")`: the leftmost match of the
regex extends to the end of the string, so replacing it keeps exactly the
characters before its opening `(`; when the regex does not match the string
is unchanged. -/
def stripAnnot : List Char → List Char
  | [] => []
  | c :: rest =>
    if c = '(' && annotHere rest then [] else c :: stripAnnot rest

/-- The source's task-text computation
`line.replace(/^\s*[-*]\s+\[[xX]\]\s*/, "").replace(/\([^)]+\)\s*$/, "").trim()`. -/
def taskText (line : String) : String :=
  match stripCheckedPrefix line.data with
  | some rest => String.mk (trimChars (stripAnnot rest))
  | none => String.mk (trimChars (stripAnnot line.data))

/-- Header line of the recurring section. -/
def repeatHeader : String := "### 반복 작업"

/-- Header line of the plain section. -/
def plainHeader : String := "### 일반 작업"

/-- The section-header marker used by `startsWith` tests. -/
def headerMarker : String := "### "

/-- Result of one extraction pass of `processTaskFile`. -/
structure ExtractResult where
  keepLines : List String
  completedLines : List String
deriving DecidableEq

/-- The line loop of `processTaskFile`, with the section flag
`inRepeatSection` threaded explicitly and the already-formatted
`tomorrow` date passed in for `moment().add(1, 'day').format(dateFormat)`. -/
def extractGo (tomorrow : String) : List String → Bool → ExtractResult
  | [], _ => ⟨[], []⟩
  | l :: ls, inRep =>
    if strTrim l = repeatHeader then
      ⟨l :: (extractGo tomorrow ls true).keepLines,
       (extractGo tomorrow ls true).completedLines⟩
    else if strTrim l = plainHeader then
      ⟨l :: (extractGo tomorrow ls false).keepLines,
       (extractGo tomorrow ls false).completedLines⟩
    else if strStartsWith l headerMarker then
      ⟨l :: (extractGo tomorrow ls false).keepLines,
       (extractGo tomorrow ls false).completedLines⟩
    else if isCheckedTask l && inRep then
      ⟨("- [ ] " ++ taskText l ++ " (" ++ tomorrow ++ ")") ::
         (extractGo tomorrow ls inRep).keepLines,
       strTrim l :: (extractGo tomorrow ls inRep).completedLines⟩
    else if isCheckedTask l then
      ⟨(extractGo tomorrow ls inRep).keepLines,
       strTrim l :: (extractGo tomorrow ls inRep).completedLines⟩
    else
      ⟨l :: (extractGo tomorrow ls inRep).keepLines,
       (extractGo tomorrow ls inRep).completedLines⟩

/-- `processTaskFile`'s split of the task document into `remaining`
(`keepLines`) and `doneTasks` (`completedLines`). -/
def extract (tomorrow : String) (lines : List String) : ExtractResult :=
  extractGo tomorrow lines false

/-- State and output of the merge loop of `appendDoneTasks`. -/
structure ScanResult where
  out : List String
  inTarget : Bool
  found : Bool
deriving DecidableEq

/-- The line loop of `appendDoneTasks`: `out` is the emitted `newContent`,
`inTarget` the final `inTargetSection` flag, `found` whether any line of the
scanned suffix was trim-equal to the date header. -/
def mergeScan (dh : String) (tasks : List String) : List String → Bool → ScanResult
  | [], inT => ⟨[], inT, false⟩
  | l :: ls, inT =>
    if strTrim l = dh then
      ⟨l :: (mergeScan dh tasks ls true).out, (mergeScan dh tasks ls true).inTarget, true⟩
    else if inT && strStartsWith l headerMarker then
      ⟨tasks ++ l :: (mergeScan dh tasks ls false).out,
       (mergeScan dh tasks ls false).inTarget,
       (mergeScan dh tasks ls false).found⟩
    else
      ⟨l :: (mergeScan dh tasks ls inT).out,
       (mergeScan dh tasks ls inT).inTarget,
       (mergeScan dh tasks ls inT).found⟩

/-- The full merge of `appendDoneTasks` on the archive's line list, before the
final join and trim. -/
def mergeDone (archive : List String) (tasks : List String) (dh : String) : List String :=
  if (mergeScan dh tasks archive false).found && (mergeScan dh tasks archive false).inTarget then
    (mergeScan dh tasks archive false).out ++ tasks
  else if !(mergeScan dh tasks archive false).found then
    (if (mergeScan dh tasks archive false).out.length > 0 then
       (mergeScan dh tasks archive false).out ++ [""]
     else (mergeScan dh tasks archive false).out) ++ dh :: tasks
  else (mergeScan dh tasks archive false).out

/-- JavaScript `content.split("\n")` on character lists. -/
def splitNl : List Char → List (List Char)
  | [] => [[]]
  | c :: rest =>
    if c = '\n' then [] :: splitNl rest
    else
      match splitNl rest with
      | [] => [[c]]
      | l :: ls => (c :: l) :: ls

/-- JavaScript `content.split("\n")`. -/
def splitLines (s : String) : List String := (splitNl s.data).map String.mk

/-- JavaScript `lines.join("\n")`. -/
def joinLines : List String → String
  | [] => ""
  | [l] => l
  | l :: ls => l ++ "\n" ++ joinLines ls

/-- The archive content written back by `appendDoneTasks`:
`newContent.join("\n").trim()` computed over the split of the previous
archive content (a missing archive file is created empty first, so its
content is the empty string). -/
def appendDoneTasks (archiveContent : String) (tasks : List String) (dh : String) : String :=
  strTrim (joinLines (mergeDone (splitLines archiveContent) tasks dh))

/-- One pass of `processTaskFile` as an effect on the two documents: `none`
models the early return (no write to either file and no archive-file
creation) taken when `doneTasks` is empty; otherwise the pair of the new
task-document content and the new archive content. -/
def processTaskFile (tomorrow dateHeader taskContent archiveContent : String) :
    Option (String × String) :=
  if (extract tomorrow (splitLines taskContent)).completedLines.isEmpty then none
  else
    some (joinLines (extract tomorrow (splitLines taskContent)).keepLines,
          appendDoneTasks archiveContent
            (extract tomorrow (splitLines taskContent)).completedLines dateHeader)

/-- Result of `checkRepeatTaskDates`. -/
structure RollResult where
  updatedLines : List String
  changed : Bool
deriving DecidableEq

/-- The line loop of `checkRepeatTaskDates`, with the section flag threaded
explicitly and `today` the already-formatted `moment().format(dateFormat)`. -/
def checkRepeatGo (today : String) : List String → Bool → RollResult
  | [], _ => ⟨[], false⟩
  | l :: ls, inRep =>
    if strTrim l = repeatHeader then
      ⟨l :: (checkRepeatGo today ls true).updatedLines, (checkRepeatGo today ls true).changed⟩
    else if strTrim l = plainHeader then
      ⟨l :: (checkRepeatGo today ls false).updatedLines, (checkRepeatGo today ls false).changed⟩
    else if strStartsWith l headerMarker then
      ⟨l :: (checkRepeatGo today ls false).updatedLines, (checkRepeatGo today ls false).changed⟩
    else if inRep && isCheckedTask l && strContains l ("(" ++ today ++ ")") then
      ⟨("- [ ] " ++ taskText l ++ " (" ++ today ++ ")") ::
         (checkRepeatGo today ls inRep).updatedLines,
       true⟩
    else
      ⟨l :: (checkRepeatGo today ls inRep).updatedLines, (checkRepeatGo today ls inRep).changed⟩

/-- `checkRepeatTaskDates` on the task document's lines. -/
def checkRepeatTaskDates (today : String) (lines : List String) : RollResult :=
  checkRepeatGo today lines false

/-- The per-line rewrite applied inside the recurring section by
`checkRepeatTaskDates`: a checked task containing the substring `(today)`
anywhere is replaced by an unchecked task whose trailing annotation is
today's date; every other line is unchanged. -/
def rollLine (today : String) (l : String) : String :=
  if isCheckedTask l && strContains l ("(" ++ today ++ ")") then
    "- [ ] " ++ taskText l ++ " (" ++ today ++ ")"
  else l

/-! ## Helper lemmas about the merge loop -/

theorem mergeScan_of_no_match (dh : String) (tasks : List String) :
    ∀ (L : List String), (∀ l ∈ L, strTrim l ≠ dh) →
      mergeScan dh tasks L false = ⟨L, false, false⟩ := by
  intro L
  induction L with
  | nil => intro _; rfl
  | cons l ls ih =>
    intro h
    have h1 : strTrim l ≠ dh := h l (List.mem_cons_self l ls)
    simp only [mergeScan, if_neg h1, Bool.false_and, if_neg (Bool.false_ne_true)]
    rw [ih (fun x hx => h x (List.mem_cons_of_mem l hx))]

theorem mergeScan_inside (dh : String) (tasks : List String) :
    ∀ (L : List String),
      (∀ l ∈ L, strTrim l ≠ dh ∧ strStartsWith l headerMarker = false) →
      mergeScan dh tasks L true = ⟨L, true, false⟩ := by
  intro L
  induction L with
  | nil => intro _; rfl
  | cons l ls ih =>
    intro h
    have h1 := h l (List.mem_cons_self l ls)
    simp only [mergeScan, if_neg h1.1, h1.2, Bool.and_false, if_neg (Bool.false_ne_true)]
    rw [ih (fun x hx => h x (List.mem_cons_of_mem l hx))]

theorem mergeScan_append (dh : String) (tasks : List String) :
    ∀ (A B : List String) (b : Bool),
      mergeScan dh tasks (A ++ B) b =
        ⟨(mergeScan dh tasks A b).out ++
           (mergeScan dh tasks B (mergeScan dh tasks A b).inTarget).out,
         (mergeScan dh tasks B (mergeScan dh tasks A b).inTarget).inTarget,
         (mergeScan dh tasks A b).found ||
           (mergeScan dh tasks B (mergeScan dh tasks A b).inTarget).found⟩ := by
  intro A
  induction A with
  | nil => intro B b; simp [mergeScan]
  | cons l A' ih =>
    intro B b
    by_cases h1 : strTrim l = dh
    · simp only [List.cons_append, mergeScan, if_pos h1, List.append_eq]
      rw [ih B true]
      simp
    · by_cases h2 : (b && strStartsWith l headerMarker) = true
      · simp only [List.cons_append, mergeScan, if_neg h1, if_pos h2, List.append_eq]
        rw [ih B false]
        simp
      · simp only [List.cons_append, mergeScan, if_neg h1, if_neg h2, List.append_eq]
        rw [ih B b]

theorem sublist_mergeScan (dh : String) (tasks : List String) :
    ∀ (L : List String) (b : Bool), List.Sublist L (mergeScan dh tasks L b).out := by
  intro L
  induction L with
  | nil => intro b; simp [mergeScan]
  | cons l ls ih =>
    intro b
    by_cases h1 : strTrim l = dh
    · simp only [mergeScan, if_pos h1]
      exact List.Sublist.cons₂ l (ih true)
    · by_cases h2 : (b && strStartsWith l headerMarker) = true
      · simp only [mergeScan, if_neg h1, if_pos h2]
        exact List.Sublist.trans (List.Sublist.cons₂ l (ih false))
          (List.sublist_append_right tasks _)
      · simp only [mergeScan, if_neg h1, if_neg h2]
        exact List.Sublist.cons₂ l (ih b)

/-! ## Helper lemmas about trimming and the rewritten keep-line -/

theorem data_mk (l : List Char) : (String.mk l).data = l := rfl

theorem data_append (s t : String) : (s ++ t).data = s.data ++ t.data := rfl

theorem dropWhile_ws_append_one (c : Char) (hc : isWs c = false) :
    ∀ (L : List Char), (L ++ [c]).dropWhile isWs = L.dropWhile isWs ++ [c] := by
  intro L
  induction L with
  | nil => simp [List.dropWhile, hc]
  | cons a L' ih =>
    by_cases ha : isWs a = true
    · simp [List.dropWhile_cons, ha, ih]
    · simp [List.dropWhile_cons, ha]

theorem dropTrailingWs_cons (c : Char) (cs : List Char) (hc : isWs c = false) :
    dropTrailingWs (c :: cs) = c :: dropTrailingWs cs := by
  unfold dropTrailingWs
  rw [List.reverse_cons, dropWhile_ws_append_one c hc]
  simp

theorem trimChars_cons (c : Char) (cs : List Char) (hc : isWs c = false) :
    trimChars (c :: cs) = c :: dropTrailingWs cs := by
  unfold trimChars
  rw [List.dropWhile_cons]
  simp [hc, dropTrailingWs_cons c cs hc]

theorem dropWhile_ws_append (l : List Char) :
    ∀ (ind : List Char), (∀ c ∈ ind, isWs c = true) →
      (ind ++ l).dropWhile isWs = l.dropWhile isWs := by
  intro ind
  induction ind with
  | nil => intro _; simp
  | cons c ind' ih =>
    intro h
    have hc := h c (List.mem_cons_self c ind')
    simp [List.dropWhile_cons, hc, ih (fun x hx => h x (List.mem_cons_of_mem c hx))]

theorem not_hash_prefix (ind : List Char) (h : ∀ c ∈ ind, isWs c = true)
    (m : Char) (hm : (m = '#') = False) (rest : List Char) :
    headerMarker.data.isPrefixOf (ind ++ m :: rest) = false := by
  cases ind with
  | nil =>
    simp only [List.nil_append]
    show (('#' == m) && _) = false
    have : ('#' == m) = false := by
      simp [beq_eq_false_iff_ne]
      intro he
      rw [← he] at hm
      simp at hm
    simp [this]
  | cons c ind' =>
    have hc := h c (List.mem_cons_self c ind')
    simp only [List.cons_append]
    show (('#' == c) && _) = false
    have : ('#' == c) = false := by
      simp [beq_eq_false_iff_ne]
      intro he
      rw [← he] at hc
      simp [isWs] at hc
    simp [this]

theorem keepline4_data (a b : String) :
    ("- [ ] " ++ a ++ " (" ++ b ++ ")").data
      = '-' :: ' ' :: '[' :: ' ' :: ']' :: ' ' ::
          (a.data ++ ' ' :: '(' :: (b.data ++ [')'])) := by
  simp [data_append, List.append_assoc]

theorem isCheckedTask_keepline4 (a b : String) :
    isCheckedTask ("- [ ] " ++ a ++ " (" ++ b ++ ")") = false := rfl

theorem strStartsWith_keepline4 (a b : String) :
    strStartsWith ("- [ ] " ++ a ++ " (" ++ b ++ ")") headerMarker = false := rfl

theorem strTrim_head_ne (l t : String) (c d : Char) (s r : List Char)
    (hl : l.data = c :: s) (hc : isWs c = false) (ht : t.data = d :: r) (hne : c ≠ d) :
    strTrim l ≠ t := by
  intro hEq
  have hd := congrArg String.data hEq
  rw [strTrim] at hd
  simp only at hd
  rw [hl, ht, trimChars_cons c s hc] at hd
  simp only [List.cons.injEq] at hd
  exact hne hd.1

theorem strTrim_keepline4_ne_repeat (a b : String) :
    strTrim ("- [ ] " ++ a ++ " (" ++ b ++ ")") ≠ repeatHeader :=
  strTrim_head_ne _ _ '-' '#' _ _ (keepline4_data a b) (by decide) rfl (by decide)

theorem strTrim_keepline4_ne_plain (a b : String) :
    strTrim ("- [ ] " ++ a ++ " (" ++ b ++ ")") ≠ plainHeader :=
  strTrim_head_ne _ _ '-' '#' _ _ (keepline4_data a b) (by decide) rfl (by decide)

/-! ## Step lemmas for the extraction loop -/

theorem extractGo_cons_repeat (t l : String) (ls : List String) (b : Bool)
    (h1 : strTrim l = repeatHeader) :
    extractGo t (l :: ls) b =
      ⟨l :: (extractGo t ls true).keepLines, (extractGo t ls true).completedLines⟩ := by
  simp [extractGo, h1]

theorem extractGo_cons_plain (t l : String) (ls : List String) (b : Bool)
    (h1 : strTrim l ≠ repeatHeader) (h2 : strTrim l = plainHeader) :
    extractGo t (l :: ls) b =
      ⟨l :: (extractGo t ls false).keepLines, (extractGo t ls false).completedLines⟩ := by
  simp only [extractGo]
  rw [if_neg h1, if_pos h2]

theorem extractGo_cons_hdr (t l : String) (ls : List String) (b : Bool)
    (h1 : strTrim l ≠ repeatHeader) (h2 : strTrim l ≠ plainHeader)
    (h3 : strStartsWith l headerMarker = true) :
    extractGo t (l :: ls) b =
      ⟨l :: (extractGo t ls false).keepLines, (extractGo t ls false).completedLines⟩ := by
  simp [extractGo, h1, h2, h3]

theorem extractGo_cons_checked_rep (t l : String) (ls : List String)
    (h1 : strTrim l ≠ repeatHeader) (h2 : strTrim l ≠ plainHeader)
    (h3 : strStartsWith l headerMarker = false) (h4 : isCheckedTask l = true) :
    extractGo t (l :: ls) true =
      ⟨("- [ ] " ++ taskText l ++ " (" ++ t ++ ")") :: (extractGo t ls true).keepLines,
       strTrim l :: (extractGo t ls true).completedLines⟩ := by
  simp [extractGo, h1, h2, h3, h4]

theorem extractGo_cons_checked_noRep (t l : String) (ls : List String)
    (h1 : strTrim l ≠ repeatHeader) (h2 : strTrim l ≠ plainHeader)
    (h3 : strStartsWith l headerMarker = false) (h4 : isCheckedTask l = true) :
    extractGo t (l :: ls) false =
      ⟨(extractGo t ls false).keepLines,
       strTrim l :: (extractGo t ls false).completedLines⟩ := by
  simp [extractGo, h1, h2, h3, h4]

theorem extractGo_cons_other (t l : String) (ls : List String) (b : Bool)
    (h1 : strTrim l ≠ repeatHeader) (h2 : strTrim l ≠ plainHeader)
    (h3 : strStartsWith l headerMarker = false) (h4 : isCheckedTask l = false) :
    extractGo t (l :: ls) b =
      ⟨l :: (extractGo t ls b).keepLines, (extractGo t ls b).completedLines⟩ := by
  simp [extractGo, h1, h2, h3, h4]

theorem extractGo_idem (t : String) :
    ∀ (L : List String) (b : Bool),
      extractGo t (extractGo t L b).keepLines b = ⟨(extractGo t L b).keepLines, []⟩ := by
  intro L
  induction L with
  | nil => intro b; rfl
  | cons l ls ih =>
    intro b
    by_cases h1 : strTrim l = repeatHeader
    · simp only [extractGo_cons_repeat t l ls b h1]
      rw [extractGo_cons_repeat t l _ b h1, ih true]
    · by_cases h2 : strTrim l = plainHeader
      · simp only [extractGo_cons_plain t l ls b h1 h2]
        rw [extractGo_cons_plain t l _ b h1 h2, ih false]
      · by_cases h3 : strStartsWith l headerMarker = true
        · simp only [extractGo_cons_hdr t l ls b h1 h2 h3]
          rw [extractGo_cons_hdr t l _ b h1 h2 h3, ih false]
        · rw [Bool.not_eq_true] at h3
          by_cases h4 : isCheckedTask l = true
          · cases b with
            | true =>
              simp only [extractGo_cons_checked_rep t l ls h1 h2 h3 h4]
              rw [extractGo_cons_other t _ _ true
                    (strTrim_keepline4_ne_repeat (taskText l) t)
                    (strTrim_keepline4_ne_plain (taskText l) t)
                    (strStartsWith_keepline4 (taskText l) t)
                    (isCheckedTask_keepline4 (taskText l) t),
                  ih true]
            | false =>
              simp only [extractGo_cons_checked_noRep t l ls h1 h2 h3 h4]
              exact ih false
          · rw [Bool.not_eq_true] at h4
            simp only [extractGo_cons_other t l ls b h1 h2 h3 h4]
            rw [extractGo_cons_other t l _ b h1 h2 h3 h4, ih b]

theorem extractGo_no_checked (t : String) :
    ∀ (L : List String) (b : Bool), (∀ l ∈ L, isCheckedTask l = false) →
      extractGo t L b = ⟨L, []⟩ := by
  intro L
  induction L with
  | nil => intro b _; rfl
  | cons l ls ih =>
    intro b h
    have hl : isCheckedTask l = false := h l (List.mem_cons_self l ls)
    have hls : ∀ x ∈ ls, isCheckedTask x = false :=
      fun x hx => h x (List.mem_cons_of_mem l hx)
    by_cases h1 : strTrim l = repeatHeader
    · rw [extractGo_cons_repeat t l ls b h1, ih true hls]
    · by_cases h2 : strTrim l = plainHeader
      · rw [extractGo_cons_plain t l ls b h1 h2, ih false hls]
      · by_cases h3 : strStartsWith l headerMarker = true
        · rw [extractGo_cons_hdr t l ls b h1 h2 h3, ih false hls]
        · rw [Bool.not_eq_true] at h3
          rw [extractGo_cons_other t l ls b h1 h2 h3 hl, ih b hls]

/-! ## Step lemmas for the repeat-date loop -/

theorem checkRepeatGo_cons_repeat (td l : String) (ls : List String) (b : Bool)
    (h1 : strTrim l = repeatHeader) :
    checkRepeatGo td (l :: ls) b =
      ⟨l :: (checkRepeatGo td ls true).updatedLines, (checkRepeatGo td ls true).changed⟩ := by
  simp [checkRepeatGo, h1]

theorem checkRepeatGo_cons_plain (td l : String) (ls : List String) (b : Bool)
    (h1 : strTrim l ≠ repeatHeader) (h2 : strTrim l = plainHeader) :
    checkRepeatGo td (l :: ls) b =
      ⟨l :: (checkRepeatGo td ls false).updatedLines, (checkRepeatGo td ls false).changed⟩ := by
  simp only [checkRepeatGo]
  rw [if_neg h1, if_pos h2]

theorem checkRepeatGo_cons_hdr (td l : String) (ls : List String) (b : Bool)
    (h1 : strTrim l ≠ repeatHeader) (h2 : strTrim l ≠ plainHeader)
    (h3 : strStartsWith l headerMarker = true) :
    checkRepeatGo td (l :: ls) b =
      ⟨l :: (checkRepeatGo td ls false).updatedLines, (checkRepeatGo td ls false).changed⟩ := by
  simp [checkRepeatGo, h1, h2, h3]

theorem checkRepeatGo_cons_roll (td l : String) (ls : List String) (b : Bool)
    (h1 : strTrim l ≠ repeatHeader) (h2 : strTrim l ≠ plainHeader)
    (h3 : strStartsWith l headerMarker = false)
    (h4 : (b && isCheckedTask l && strContains l ("(" ++ td ++ ")")) = true) :
    checkRepeatGo td (l :: ls) b =
      ⟨("- [ ] " ++ taskText l ++ " (" ++ td ++ ")") ::
         (checkRepeatGo td ls b).updatedLines, true⟩ := by
  simp [checkRepeatGo, h1, h2, h3, h4]

theorem checkRepeatGo_cons_other (td l : String) (ls : List String) (b : Bool)
    (h1 : strTrim l ≠ repeatHeader) (h2 : strTrim l ≠ plainHeader)
    (h3 : strStartsWith l headerMarker = false)
    (h4 : (b && isCheckedTask l && strContains l ("(" ++ td ++ ")")) = false) :
    checkRepeatGo td (l :: ls) b =
      ⟨l :: (checkRepeatGo td ls b).updatedLines, (checkRepeatGo td ls b).changed⟩ := by
  simp [checkRepeatGo, h1, h2, h3, h4]

theorem checkRepeatGo_stable (td : String) :
    ∀ (L : List String) (b : Bool),
      checkRepeatGo td (checkRepeatGo td L b).updatedLines b =
        ⟨(checkRepeatGo td L b).updatedLines, false⟩ := by
  intro L
  induction L with
  | nil => intro b; rfl
  | cons l ls ih =>
    intro b
    by_cases h1 : strTrim l = repeatHeader
    · simp only [checkRepeatGo_cons_repeat td l ls b h1]
      rw [checkRepeatGo_cons_repeat td l _ b h1, ih true]
    · by_cases h2 : strTrim l = plainHeader
      · simp only [checkRepeatGo_cons_plain td l ls b h1 h2]
        rw [checkRepeatGo_cons_plain td l _ b h1 h2, ih false]
      · by_cases h3 : strStartsWith l headerMarker = true
        · simp only [checkRepeatGo_cons_hdr td l ls b h1 h2 h3]
          rw [checkRepeatGo_cons_hdr td l _ b h1 h2 h3, ih false]
        · rw [Bool.not_eq_true] at h3
          by_cases h4 : (b && isCheckedTask l && strContains l ("(" ++ td ++ ")")) = true
          · simp only [checkRepeatGo_cons_roll td l ls b h1 h2 h3 h4]
            rw [checkRepeatGo_cons_other td _ _ b
                  (strTrim_keepline4_ne_repeat (taskText l) td)
                  (strTrim_keepline4_ne_plain (taskText l) td)
                  (strStartsWith_keepline4 (taskText l) td)
                  (by simp [isCheckedTask_keepline4 (taskText l) td]),
                ih b]
          · rw [Bool.not_eq_true] at h4
            simp only [checkRepeatGo_cons_other td l ls b h1 h2 h3 h4]
            rw [checkRepeatGo_cons_other td l _ b h1 h2 h3 h4, ih b]

/-! ## Inversion of the checked-task test -/

theorem stripCheckedPrefix_marker (cs : List Char)
    (h : (stripCheckedPrefix cs).isSome = true) :
    ∃ m rest, cs.dropWhile isWs = m :: rest ∧ (m = '-' ∨ m = '*') := by
  unfold stripCheckedPrefix at h
  cases hd : cs.dropWhile isWs with
  | nil => rw [hd] at h; simp at h
  | cons m rest =>
    cases rest with
    | nil => rw [hd] at h; simp at h
    | cons c rest2 =>
      rw [hd] at h
      refine ⟨m, c :: rest2, rfl, ?_⟩
      by_cases hm : ((m = '-' || m = '*') : Bool) = true
      · simpa using hm
      · rw [Bool.not_eq_true] at hm
        simp [hm] at h

theorem isCheckedTask_not_header (l : String) (h : isCheckedTask l = true) :
    strTrim l ≠ repeatHeader ∧ strTrim l ≠ plainHeader ∧
      strStartsWith l headerMarker = false := by
  obtain ⟨m, rest, hd, hm⟩ := stripCheckedPrefix_marker l.data h
  have hmw : isWs m = false := by rcases hm with rfl | rfl <;> rfl
  have htrim : trimChars l.data = m :: dropTrailingWs rest := by
    unfold trimChars
    rw [hd, dropTrailingWs_cons m rest hmw]
  refine ⟨?_, ?_, ?_⟩
  · intro hEq
    have hdd := congrArg String.data hEq
    simp only [strTrim, data_mk] at hdd
    rw [htrim] at hdd
    rw [show repeatHeader.data = '#' :: ("## 반복 작업").data from rfl] at hdd
    simp only [List.cons.injEq] at hdd
    rcases hm with rfl | rfl <;> exact absurd hdd.1 (by decide)
  · intro hEq
    have hdd := congrArg String.data hEq
    simp only [strTrim, data_mk] at hdd
    rw [htrim] at hdd
    rw [show plainHeader.data = '#' :: ("## 일반 작업").data from rfl] at hdd
    simp only [List.cons.injEq] at hdd
    rcases hm with rfl | rfl <;> exact absurd hdd.1 (by decide)
  · by_cases hs : strStartsWith l headerMarker = true
    · exfalso
      unfold strStartsWith at hs
      have hpre : headerMarker.data <+: l.data := List.isPrefixOf_iff_prefix.mp hs
      obtain ⟨t, ht⟩ := hpre
      have hnodrop : l.data.dropWhile isWs = l.data := by
        rw [← ht]
        rfl
      rw [hnodrop] at hd
      rw [← ht] at hd
      rw [show headerMarker.data = '#' :: ("## ").data from rfl] at hd
      simp only [List.cons_append, List.cons.injEq] at hd
      rcases hm with rfl | rfl <;> exact absurd hd.1.symm (by decide)
    · rw [Bool.not_eq_true] at hs
      exact hs

end MinimalTask

namespace MinimalTask

/-! ## Claim theorems -/

/-- C1: for the task document with recurring section `### 반복 작업` holding
the checked line `- [x] Drink water (2024-01-01)` and today formatted as
`2024-01-02` (so tomorrow is `2024-01-03`), extraction keeps the header and
the rewritten unchecked line with tomorrow's date, the completed lines are
exactly the original trimmed checked line, and merging them into an empty
archive produces a document with the section `### 2024-01-02` followed by
that line. -/
theorem extract_merge_drink_water_example :
    extract ("2024-01-03") [("### 반복 작업"), ("- [x] Drink water (2024-01-01)")]
        = ⟨[("### 반복 작업"), ("- [ ] Drink water (2024-01-03)")],
           [("- [x] Drink water (2024-01-01)")]⟩ ∧
    appendDoneTasks ("") [("- [x] Drink water (2024-01-01)")] ("### 2024-01-02")
        = ("### 2024-01-02\n- [x] Drink water (2024-01-01)") := by
  decide

/-- C2: merging a non-empty list of completed lines into an archive none of
whose lines is trim-equal to the date header appends, after a blank-line
separator when the archive is non-empty, the date header followed by the
completed lines, in order; in particular the tail of the result is exactly
the header then the tasks. -/
theorem mergeDone_new_section (archive tasks : List String) (dh : String)
    (hnm : ∀ l ∈ archive, strTrim l ≠ dh) (hne : tasks ≠ []) :
    mergeDone archive tasks dh =
      (if archive = [] then ([] : List String) else archive ++ [("")]) ++ dh :: tasks := by
  unfold mergeDone
  rw [mergeScan_of_no_match dh tasks archive hnm]
  cases archive with
  | nil => simp
  | cons a l => simp

/-- C2 witness. -/
theorem mergeDone_new_section_witness :
    (∀ l ∈ [("- old entry")], strTrim l ≠ ("### 2024-01-02")) ∧
    ([("- [x] t")] : List String) ≠ [] ∧
    mergeDone [("- old entry")] [("- [x] t")] ("### 2024-01-02")
      = (if [("- old entry")] = ([] : List String) then ([] : List String)
         else [("- old entry")] ++ [("")]) ++ ("### 2024-01-02") :: [("- [x] t")] :=
  ⟨by decide, by decide,
   mergeDone_new_section [("- old entry")] [("- [x] t")] ("### 2024-01-02")
     (by decide) (by decide)⟩

/-- C3: when the archive contains exactly one line trim-equal to the date
header — written `A ++ h :: (B ++ C)` with `h` the unique matching line, `B`
the rest of its section (no `### ` lines), and `C` the later sections (empty
or starting with a `### ` line) — the merge inserts the completed lines at
the end of that section, before `C`, and every later line is preserved
verbatim in its original order. -/
theorem mergeDone_existing_section (A B C : List String) (h : String)
    (tasks : List String) (dh : String)
    (hh : strTrim h = dh)
    (hA : ∀ l ∈ A, strTrim l ≠ dh)
    (hB : ∀ l ∈ B, strTrim l ≠ dh ∧ strStartsWith l headerMarker = false)
    (hC : ∀ l ∈ C, strTrim l ≠ dh)
    (hChead : C = [] ∨ ∃ c C', C = c :: C' ∧ strStartsWith c headerMarker = true) :
    mergeDone (A ++ h :: (B ++ C)) tasks dh = A ++ h :: (B ++ (tasks ++ C)) := by
  have hscan :
      mergeScan dh tasks (A ++ h :: (B ++ C)) false =
        ⟨A ++ h :: (B ++ (mergeScan dh tasks C true).out),
         (mergeScan dh tasks C true).inTarget, true⟩ := by
    rw [mergeScan_append dh tasks A (h :: (B ++ C)) false,
      mergeScan_of_no_match dh tasks A hA]
    simp only [mergeScan, if_pos hh]
    rw [mergeScan_append dh tasks B C true, mergeScan_inside dh tasks B hB]
    simp
  rcases hChead with hc | ⟨c, C', rfl, hcs⟩
  · subst hc
    unfold mergeDone
    rw [hscan]
    simp [mergeScan, List.append_assoc]
  · have hc1 : strTrim c ≠ dh := hC c (List.mem_cons_self c C')
    have hscanC : mergeScan dh tasks (c :: C') true =
        ⟨tasks ++ c :: C', false, false⟩ := by
      simp only [mergeScan, if_neg hc1, hcs, Bool.true_and, if_pos rfl]
      rw [mergeScan_of_no_match dh tasks C'
        (fun x hx => hC x (List.mem_cons_of_mem c hx))]
      simp
    unfold mergeDone
    rw [hscan, hscanC]
    simp

/-- C3 witness. -/
theorem mergeDone_existing_section_witness :
    strTrim ("### 2024-01-02") = ("### 2024-01-02") ∧
    (∀ l ∈ [("intro")], strTrim l ≠ ("### 2024-01-02")) ∧
    (∀ l ∈ [("- [x] a")], strTrim l ≠ ("### 2024-01-02") ∧
      strStartsWith l headerMarker = false) ∧
    (∀ l ∈ [("### 2024-01-01"), ("- [x] z")], strTrim l ≠ ("### 2024-01-02")) ∧
    mergeDone ([("intro")] ++ ("### 2024-01-02") ::
        ([("- [x] a")] ++ [("### 2024-01-01"), ("- [x] z")]))
        [("- [x] t")] ("### 2024-01-02")
      = [("intro")] ++ ("### 2024-01-02") ::
          ([("- [x] a")] ++ ([("- [x] t")] ++ [("### 2024-01-01"), ("- [x] z")])) :=
  ⟨by decide, by decide, by decide, by decide,
   mergeDone_existing_section [("intro")] [("- [x] a")]
     [("### 2024-01-01"), ("- [x] z")] ("### 2024-01-02") [("- [x] t")]
     ("### 2024-01-02") (by decide) (by decide) (by decide) (by decide)
     (Or.inr ⟨("### 2024-01-01"), [("- [x] z")], rfl, by decide⟩)⟩

/-- C4 counterexample: with a duplicate date header in the archive the merge
does NOT treat the later occurrence as ordinary content.  Here the claim
predicts the completed line lands at the end of the section opened by the
first occurrence and never after the duplicate header; the code instead
re-opens the target section at the duplicate and appends the completed line
at the very end, after the duplicate header and its content. -/
theorem mergeDone_duplicate_header_counterexample :
    mergeDone [("### 2024-01-02"), ("- [x] a"), ("### 2024-01-02"), ("- [x] b")]
        [("- [x] t")] ("### 2024-01-02")
      = [("### 2024-01-02"), ("- [x] a"), ("### 2024-01-02"), ("- [x] b"), ("- [x] t")] ∧
    mergeDone [("### 2024-01-02"), ("- [x] a"), ("### 2024-01-02"), ("- [x] b")]
        [("- [x] t")] ("### 2024-01-02")
      ≠ [("### 2024-01-02"), ("- [x] a"), ("- [x] t"), ("### 2024-01-02"), ("- [x] b")] := by
  decide

/-- C4 as amended: every line trim-equal to the date header re-opens the
target section.  When the last such occurrence `h` is followed only by lines
`B` that neither match the header nor start with `### `, the completed lines
are appended at the very end of the document, after the duplicate header and
`B`; the output for the prefix `A` (which contains an earlier occurrence) is
whatever the scan emits for it, so completed lines can also be emitted
inside `A`. -/
theorem mergeDone_duplicate_header_reopens (A B : List String) (h : String)
    (tasks : List String) (dh : String)
    (hh : strTrim h = dh)
    (hA : ∃ a ∈ A, strTrim a = dh)
    (hB : ∀ l ∈ B, strTrim l ≠ dh ∧ strStartsWith l headerMarker = false) :
    mergeDone (A ++ h :: B) tasks dh =
      (mergeScan dh tasks A false).out ++ h :: (B ++ tasks) := by
  have hscan :
      mergeScan dh tasks (A ++ h :: B) false =
        ⟨(mergeScan dh tasks A false).out ++ h :: B, true, true⟩ := by
    rw [mergeScan_append dh tasks A (h :: B) false]
    simp only [mergeScan, if_pos hh]
    rw [mergeScan_inside dh tasks B hB]
    simp
  unfold mergeDone
  rw [hscan]
  simp [List.append_assoc]

/-- C4 witness. -/
theorem mergeDone_duplicate_header_reopens_witness :
    strTrim ("### 2024-01-02") = ("### 2024-01-02") ∧
    (∃ a ∈ [("### 2024-01-02"), ("- [x] a")], strTrim a = ("### 2024-01-02")) ∧
    (∀ l ∈ [("- [x] b")], strTrim l ≠ ("### 2024-01-02") ∧
      strStartsWith l headerMarker = false) ∧
    mergeDone ([("### 2024-01-02"), ("- [x] a")] ++ ("### 2024-01-02") :: [("- [x] b")])
        [("- [x] t")] ("### 2024-01-02")
      = (mergeScan ("### 2024-01-02") [("- [x] t")]
           [("### 2024-01-02"), ("- [x] a")] false).out ++
          ("### 2024-01-02") :: ([("- [x] b")] ++ [("- [x] t")]) :=
  ⟨by decide, by decide, by decide,
   mergeDone_duplicate_header_reopens [("### 2024-01-02"), ("- [x] a")] [("- [x] b")]
     ("### 2024-01-02") [("- [x] t")] ("### 2024-01-02")
     (by decide) (by decide) (by decide)⟩

/-- C5 counterexample: the write-back is `newContent.join("\n").trim()`,
which trims BOTH ends, not only trailing blank lines.  An archive that
begins with a blank line loses it: it does not appear verbatim in the merge
result as the claim requires. -/
theorem appendDoneTasks_leading_trim_counterexample :
    appendDoneTasks ("\n- kept line") [("- [x] t")] ("### 2024-01-02")
      = ("- kept line\n\n### 2024-01-02\n- [x] t") ∧
    appendDoneTasks ("\n- kept line") [("- [x] t")] ("### 2024-01-02")
      ≠ ("\n- kept line\n\n### 2024-01-02\n- [x] t") := by
  decide

/-- C5 as amended: at the line-list level every archive line (inside or
outside the target section) appears in the merge result in its original
relative order — the merge only inserts lines, never drops or reorders —
while the written-back string is the joined result trimmed of leading AND
trailing whitespace (JavaScript `trim`), so leading blank lines are removed,
not only trailing ones. -/
theorem mergeDone_preserves_archive_lines (L tasks : List String) (dh : String) :
    List.Sublist L (mergeDone L tasks dh) := by
  have hbase := sublist_mergeScan dh tasks L false
  unfold mergeDone
  by_cases hf : ((mergeScan dh tasks L false).found &&
      (mergeScan dh tasks L false).inTarget) = true
  · rw [if_pos hf]
    exact hbase.trans (List.sublist_append_left _ tasks)
  · rw [if_neg hf]
    by_cases hn : (!(mergeScan dh tasks L false).found) = true
    · rw [if_pos hn]
      by_cases hl : (mergeScan dh tasks L false).out.length > 0
      · rw [if_pos hl]
        exact hbase.trans ((List.sublist_append_left _ [("")]).trans
          (List.sublist_append_left _ _))
      · rw [if_neg hl]
        exact hbase.trans (List.sublist_append_left _ _)
    · rw [if_neg hn]
      exact hbase

/-- C6 counterexample: the repeat-date checker triggers on
`line.includes("(today)")`, not on the trailing annotation.  This checked
recurring line mentions `(2024-01-02)` in its middle while its trailing
annotation is `(2099-01-01)`; the claim says it passes through unchanged,
but the code rewrites it (and discards the trailing annotation). -/
theorem checkRepeat_substring_counterexample :
    (checkRepeatTaskDates ("2024-01-02")
        [("### 반복 작업"), ("- [x] call (2024-01-02) again (2099-01-01)")]).updatedLines
      ≠ [("### 반복 작업"), ("- [x] call (2024-01-02) again (2099-01-01)")] ∧
    checkRepeatTaskDates ("2024-01-02")
        [("### 반복 작업"), ("- [x] call (2024-01-02) again (2099-01-01)")]
      = ⟨[("### 반복 작업"), ("- [ ] call (2024-01-02) again (2024-01-02)")], true⟩ := by
  decide

/-- C6 as amended: within the recurring section the checker rewrites a
checked task line exactly when the line contains the substring `(today)`
anywhere (JavaScript `includes`), not only as its trailing annotation; the
rewrite replaces the whole trailing annotation with today's date, and every
line not satisfying that condition passes through unchanged.  The `changed`
flag is set exactly when some line was rewritten. -/
theorem checkRepeat_recurring_rewrite_iff_contains (td : String) (L : List String)
    (hL : ∀ l ∈ L, strTrim l ≠ repeatHeader ∧ strTrim l ≠ plainHeader ∧
      strStartsWith l headerMarker = false) :
    checkRepeatGo td L true =
      ⟨L.map (rollLine td),
       L.any (fun l => isCheckedTask l && strContains l ("(" ++ td ++ ")"))⟩ := by
  induction L with
  | nil => rfl
  | cons l ls ih =>
    have hl := hL l (List.mem_cons_self l ls)
    have hls := fun x hx => hL x (List.mem_cons_of_mem l hx)
    by_cases hc : (isCheckedTask l && strContains l ("(" ++ td ++ ")")) = true
    · rw [checkRepeatGo_cons_roll td l ls true hl.1 hl.2.1 hl.2.2 (by simp [hc]),
        ih hls]
      simp [rollLine, hc]
    · rw [Bool.not_eq_true] at hc
      rw [checkRepeatGo_cons_other td l ls true hl.1 hl.2.1 hl.2.2 (by simp [hc]),
        ih hls]
      simp [rollLine, hc]

/-- C6 witness. -/
theorem checkRepeat_recurring_rewrite_iff_contains_witness :
    (∀ l ∈ [("- [x] a (2024-01-02)"), ("- [ ] b"), ("note")],
      strTrim l ≠ repeatHeader ∧ strTrim l ≠ plainHeader ∧
        strStartsWith l headerMarker = false) ∧
    checkRepeatGo ("2024-01-02") [("- [x] a (2024-01-02)"), ("- [ ] b"), ("note")] true =
      ⟨List.map (rollLine ("2024-01-02")) [("- [x] a (2024-01-02)"), ("- [ ] b"), ("note")],
       List.any [("- [x] a (2024-01-02)"), ("- [ ] b"), ("note")]
         (fun l => isCheckedTask l && strContains l ("(" ++ ("2024-01-02") ++ ")"))⟩ :=
  ⟨by decide,
   checkRepeat_recurring_rewrite_iff_contains ("2024-01-02")
     [("- [x] a (2024-01-02)"), ("- [ ] b"), ("note")] (by decide)⟩

/-- C7: extraction is idempotent on `keepLines`: running the extractor on
the kept lines of a first run (same formatted tomorrow date) returns those
lines unchanged and an empty `completedLines`. -/
theorem extract_idempotent (t : String) (D : List String) :
    extract t (extract t D).keepLines = ⟨(extract t D).keepLines, []⟩ :=
  extractGo_idem t D false

/-- C8: when no line of the task document passes the checked-task test the
pass is a complete no-op: the model returns `none`, i.e. the early return of
`processTaskFile` on empty `doneTasks` fires, so neither document is
written and no archive file is created. -/
theorem processTaskFile_noop (tm dh tc ac : String)
    (h : ∀ l ∈ splitLines tc, isCheckedTask l = false) :
    processTaskFile tm dh tc ac = none := by
  unfold processTaskFile
  rw [show extract tm (splitLines tc) = extractGo tm (splitLines tc) false from rfl,
    extractGo_no_checked tm (splitLines tc) false h]
  rfl

/-- C8 witness. -/
theorem processTaskFile_noop_witness :
    (∀ l ∈ splitLines ("### 일반 작업\n- [ ] a\ntext"), isCheckedTask l = false) ∧
    processTaskFile ("2024-01-03") ("### 2024-01-02")
        ("### 일반 작업\n- [ ] a\ntext") ("") = none :=
  ⟨by decide,
   processTaskFile_noop ("2024-01-03") ("### 2024-01-02")
     ("### 일반 작업\n- [ ] a\ntext") ("") (by decide)⟩

/-- C9: running the repeat-date checker on a document whose recurring
section has a task checked with today's date as annotation flips that line
to unchecked with the same date and reports `changed = true`; and, for every
document and every formatted today, running the checker again on the
resulting lines reports `changed = false` with the lines unchanged. -/
theorem checkRepeat_flip_then_stable :
    checkRepeatTaskDates ("2024-01-02")
        [("### 반복 작업"), ("- [x] Drink water (2024-01-02)")]
      = ⟨[("### 반복 작업"), ("- [ ] Drink water (2024-01-02)")], true⟩ ∧
    ∀ (today : String) (L : List String),
      checkRepeatTaskDates today (checkRepeatTaskDates today L).updatedLines =
        ⟨(checkRepeatTaskDates today L).updatedLines, false⟩ :=
  ⟨by decide, fun today L => checkRepeatGo_stable today L false⟩

/-- C10: inside the recurring section every checked task line is rewritten
to the normalized keep-line `"- [ ] " ++ taskText ++ " (tomorrow)"` at
column 0 — a checked line can never be taken for a section header, whatever
its indentation — and, concretely, for any all-whitespace indentation, list
marker `-` or `*` and checkbox letter `x` or `X`, the line
`<ind><m> [<x>] My task (old)` under `### 반복 작업` yields the keep-line
`- [ ] My task (<tomorrow>)`: indentation, marker, checkbox case and the
original trailing annotation are all discarded. -/
theorem extract_normalizes_keepline :
    (∀ (tm l : String) (ls : List String), isCheckedTask l = true →
      extractGo tm (l :: ls) true =
        ⟨("- [ ] " ++ taskText l ++ " (" ++ tm ++ ")") :: (extractGo tm ls true).keepLines,
         strTrim l :: (extractGo tm ls true).completedLines⟩) ∧
    (∀ (tm : String) (ind : List Char) (m x : Char),
      (∀ c ∈ ind, isWs c = true) → (m = '-' ∨ m = '*') → (x = 'x' ∨ x = 'X') →
      extract tm
          [repeatHeader,
           String.mk (ind ++ m :: ' ' :: '[' :: x :: ']' :: ' ' :: ("My task (old)").data)]
        = ⟨[repeatHeader, ("- [ ] My task (") ++ tm ++ (")")],
           [strTrim (String.mk
              (ind ++ m :: ' ' :: '[' :: x :: ']' :: ' ' :: ("My task (old)").data))]⟩) := by
  constructor
  · intro tm l ls h
    obtain ⟨h1, h2, h3⟩ := isCheckedTask_not_header l h
    exact extractGo_cons_checked_rep tm l ls h1 h2 h3 h
  · intro tm ind m x hind hm hx
    have hmw : isWs m = false := by rcases hm with rfl | rfl <;> rfl
    have hstrip : stripCheckedPrefix
        (ind ++ m :: ' ' :: '[' :: x :: ']' :: ' ' :: ("My task (old)").data)
          = some (("My task (old)").data) := by
      unfold stripCheckedPrefix
      rw [dropWhile_ws_append _ ind hind]
      rcases hm with rfl | rfl <;> rcases hx with rfl | rfl <;> rfl
    have htrim : trimChars
        (ind ++ m :: ' ' :: '[' :: x :: ']' :: ' ' :: ("My task (old)").data)
          = m :: dropTrailingWs (' ' :: '[' :: x :: ']' :: ' ' :: ("My task (old)").data) := by
      unfold trimChars
      rw [dropWhile_ws_append _ ind hind, List.dropWhile_cons]
      simp [hmw, dropTrailingWs_cons m _ hmw]
    have h1 : strTrim (String.mk
        (ind ++ m :: ' ' :: '[' :: x :: ']' :: ' ' :: ("My task (old)").data))
          ≠ repeatHeader := by
      intro hEq
      have hd := congrArg String.data hEq
      simp only [strTrim, data_mk] at hd
      rw [htrim] at hd
      rw [show repeatHeader.data = '#' :: ("## 반복 작업").data from rfl] at hd
      simp only [List.cons.injEq] at hd
      rcases hm with rfl | rfl <;> exact absurd hd.1 (by decide)
    have h2 : strTrim (String.mk
        (ind ++ m :: ' ' :: '[' :: x :: ']' :: ' ' :: ("My task (old)").data))
          ≠ plainHeader := by
      intro hEq
      have hd := congrArg String.data hEq
      simp only [strTrim, data_mk] at hd
      rw [htrim] at hd
      rw [show plainHeader.data = '#' :: ("## 일반 작업").data from rfl] at hd
      simp only [List.cons.injEq] at hd
      rcases hm with rfl | rfl <;> exact absurd hd.1 (by decide)
    have h3 : strStartsWith (String.mk
        (ind ++ m :: ' ' :: '[' :: x :: ']' :: ' ' :: ("My task (old)").data)) headerMarker
          = false := by
      unfold strStartsWith
      rw [data_mk]
      exact not_hash_prefix ind hind m (by rcases hm with rfl | rfl <;> simp) _
    have h4 : isCheckedTask (String.mk
        (ind ++ m :: ' ' :: '[' :: x :: ']' :: ' ' :: ("My task (old)").data)) = true := by
      unfold isCheckedTask
      rw [data_mk, hstrip]
      rfl
    have h5 : taskText (String.mk
        (ind ++ m :: ' ' :: '[' :: x :: ']' :: ' ' :: ("My task (old)").data))
          = ("My task") := by
      unfold taskText
      rw [data_mk, hstrip]
      rfl
    show extractGo tm _ false = _
    rw [extractGo_cons_repeat tm repeatHeader _ false (by decide)]
    rw [extractGo_cons_checked_rep tm _ [] h1 h2 h3 h4]
    rw [h5]
    rfl

/-- C10 witness. -/
theorem extract_normalizes_keepline_witness :
    (∀ c ∈ [' ', ' '], isWs c = true) ∧
    (('*' : Char) = '-' ∨ ('*' : Char) = '*') ∧
    (('X' : Char) = 'x' ∨ ('X' : Char) = 'X') ∧
    extract ("2024-01-03")
        [repeatHeader,
         String.mk ([' ', ' '] ++ '*' :: ' ' :: '[' :: 'X' :: ']' :: ' ' ::
           ("My task (old)").data)]
      = ⟨[repeatHeader, ("- [ ] My task (") ++ ("2024-01-03") ++ (")")],
         [strTrim (String.mk ([' ', ' '] ++ '*' :: ' ' :: '[' :: 'X' :: ']' :: ' ' ::
           ("My task (old)").data))]⟩ :=
  ⟨by decide, Or.inr rfl, Or.inr rfl,
   extract_normalizes_keepline.2 ("2024-01-03") [' ', ' '] '*' 'X'
     (by decide) (Or.inr rfl) (Or.inr rfl)⟩

end MinimalTask
